import Mathlib

/-!
# Verification of the workmux state layer and sandbox helpers

A shallow embedding, in Lean, of the parts of the `workmux` code base that the
frozen claims speak about: the `PaneKey` filename codec and the agent-state
reconciliation in `src/state` (`types.rs`, `store.rs`), the restore
orchestration in `src/command/restore.rs`, the UUID validation in
`src/claude/session.rs`, and the sandbox helpers in `src/sandbox`
(`shims.rs`, `toolchain.rs`).

Rust `String`/`&str` values are modelled as `List Char` (or `List Nat` where
the source operates byte-wise); filesystem and multiplexer effects are made
explicit as values threaded through the functions.
-/

/-! ## String splitting on the `"__"` separator (PaneKey::from_filename) -/

/-- Split a char list at the leftmost occurrence of the two-char separator
`"__"`, returning the part before it and the part after it (both underscores
consumed).  This is one step of Rust's `str::splitn(_, "__")`, which matches
the pattern at its leftmost occurrence. -/
def splitOnceUU : List Char → Option (List Char × List Char)
  | [] => none
  | [_] => none
  | a :: b :: rest =>
    if a = '_' ∧ b = '_' then some ([], rest)
    else
      match splitOnceUU (b :: rest) with
      | none => none
      | some (p, q) => some (a :: p, q)

/-- Remove `p` from the front of `l`, or `none` when `l` does not start
with `p`. -/
def chopLead : List Char → List Char → Option (List Char)
  | [], l => some l
  | _ :: _, [] => none
  | p :: ps, c :: cs => if p = c then chopLead ps cs else none

/-- Remove suffix `s` from the end of `l`, or `none` when `l` does not end
with `s`.  Mirrors Rust's `str::strip_suffix`. -/
def chopTail (s l : List Char) : Option (List Char) :=
  (chopLead s.reverse l.reverse).map List.reverse

/-- The `".json"` extension appended by `PaneKey::to_filename`. -/
def jsonExt : List Char := ['.', 'j', 's', 'o', 'n']

/-- Composite pane identity (struct `PaneKey`, `src/state/types.rs`).
The Rust field `instance` is named `inst` here because `instance` is a Lean
keyword. -/
structure PaneKey where
  backend : List Char
  inst : List Char
  pane_id : List Char
deriving DecidableEq, Repr

/-- `PaneKey::to_filename`: `{backend}__{instance}__{pane_id}.json`. -/
def PaneKey.to_filename (k : PaneKey) : List Char :=
  k.backend ++ '_' :: '_' :: (k.inst ++ '_' :: '_' :: (k.pane_id ++ jsonExt))

/-- `PaneKey::from_filename`: strip the `".json"` suffix, split the stem into
exactly three fields on `"__"` (`splitn(3, "__")`, so the third field keeps
any further separators), reject anything else. -/
def PaneKey.from_filename (f : List Char) : Option PaneKey :=
  match chopTail jsonExt f with
  | none => none
  | some stem =>
    match splitOnceUU stem with
    | none => none
    | some (b, r1) =>
      match splitOnceUU r1 with
      | none => none
      | some (i, p) => some ⟨b, i, p⟩

/-- A field is safe to sit in front of a `"__"` separator iff it does not
contain two consecutive underscores and does not end in an underscore: then
the leftmost `"__"` of `field ++ "__" ++ rest` is the separator itself. -/
def sepSafe : List Char → Bool
  | [] => true
  | [c] => if c = '_' then false else true
  | a :: b :: rest => if a = '_' ∧ b = '_' then false else sepSafe (b :: rest)

theorem chopLead_self : ∀ p l : List Char, chopLead p (p ++ l) = some l
  | [], _ => rfl
  | p :: ps, l => by simp [chopLead, chopLead_self ps l]

theorem chopTail_append (s x : List Char) : chopTail s (x ++ s) = some x := by
  simp [chopTail, List.reverse_append, chopLead_self]

theorem splitOnceUU_sep :
    ∀ b : List Char, sepSafe b = true →
      ∀ rest : List Char, splitOnceUU (b ++ '_' :: '_' :: rest) = some (b, rest)
  | [], _, rest => by simp [splitOnceUU]
  | [c], h, rest => by
    have hc : ¬(c = '_') := by simpa [sepSafe] using h
    simp [splitOnceUU, hc]
  | a :: c :: t, h, rest => by
    have hn : ¬(a = '_' ∧ c = '_') := by
      by_contra hcon
      simp [sepSafe, hcon] at h
    have ht : sepSafe (c :: t) = true := by
      simpa [sepSafe, hn] using h
    have ih := splitOnceUU_sep (c :: t) ht rest
    simp only [List.cons_append] at ih ⊢
    simp [splitOnceUU, hn, ih]

/-- **C4** (corrected).  `from_filename ∘ to_filename` is the identity on a
`PaneKey` whose `backend` and `instance` fields contain no `"__"` and do not
end in `'_'` (`sepSafe`); the `pane_id` field is unrestricted, as promised by
the double-underscore delimiter design. -/
theorem paneKey_roundtrip (k : PaneKey)
    (hb : sepSafe k.backend = true) (hi : sepSafe k.inst = true) :
    PaneKey.from_filename (PaneKey.to_filename k) = some k := by
  obtain ⟨b, i, p⟩ := k
  simp only [PaneKey.to_filename] at *
  have hstem :
      chopTail jsonExt
        ((b ++ '_' :: '_' :: (i ++ '_' :: '_' :: p)) ++ jsonExt) =
        some (b ++ '_' :: '_' :: (i ++ '_' :: '_' :: p)) :=
    chopTail_append jsonExt _
  have hshape :
      b ++ '_' :: '_' :: (i ++ '_' :: '_' :: (p ++ jsonExt)) =
        (b ++ '_' :: '_' :: (i ++ '_' :: '_' :: p)) ++ jsonExt := by
    simp
  rw [PaneKey.from_filename, hshape, hstem]
  simp [splitOnceUU_sep b hb, splitOnceUU_sep i hi]

/-- **C4 witness**: the round trip at the concrete key
`⟨"tmux", "default", "pane_with_underscores"⟩`. -/
theorem paneKey_roundtrip_witness :
    PaneKey.from_filename
        (PaneKey.to_filename
          ⟨['t', 'm', 'u', 'x'], ['d', 'e', 'f'], ['a', '_', 'b']⟩) =
      some ⟨['t', 'm', 'u', 'x'], ['d', 'e', 'f'], ['a', '_', 'b']⟩ :=
  paneKey_roundtrip ⟨['t', 'm', 'u', 'x'], ['d', 'e', 'f'], ['a', '_', 'b']⟩
    (by decide) (by decide)

/-- **C4 counterexample**: the round trip is *not* the identity on every
`PaneKey`.  For backend `"x_"` (ending in an underscore) the filename is
`"x___y__z.json"`, whose leftmost `"__"` sits one character early, so parsing
returns `⟨"x", "_y", "z"⟩` instead of the original key. -/
theorem paneKey_roundtrip_cex :
    PaneKey.from_filename (PaneKey.to_filename ⟨['x', '_'], ['y'], ['z']⟩) =
        some ⟨['x'], ['_', 'y'], ['z']⟩ ∧
      PaneKey.from_filename (PaneKey.to_filename ⟨['x', '_'], ['y'], ['z']⟩) ≠
        some ⟨['x', '_'], ['y'], ['z']⟩ := by
  constructor <;> decide

/-! ## Agent state, live panes, and reconciliation (src/state/store.rs) -/

/-- Live pane information returned by the multiplexer's batched query.
Modelled from the spec: the multiplexer type definitions are not under
`src/`; §4.2 gives `LivePaneInfo = {pid, current_command, session?, window?,
title?}`, matching every field access in `store.rs`. -/
structure LivePaneInfo where
  pid : Nat
  current_command : List Char
  session : Option (List Char)
  window : Option (List Char)
  title : Option (List Char)
deriving DecidableEq, Repr

/-- Persistent per-agent record (struct `AgentState`).  `src/state/types.rs`
holds an older revision without the `restored` flag; the flag is read by
`store.rs` and documented in the spec (§3), so it is included here. -/
structure AgentState where
  pane_key : PaneKey
  workdir : List Char
  status : Option (List Char)
  status_ts : Option Nat
  pane_title : Option (List Char)
  pane_pid : Nat
  command : List Char
  updated_ts : Nat
  restored : Bool
deriving DecidableEq, Repr

/-- Dashboard row (struct `AgentPane`).  Modelled from the spec: the
multiplexer type definitions are not under `src/`; fields follow the older
`types.rs` revision, which `store.rs` fills from the persistent record plus
the transient session/window/title of the snapshot (spec §4.2 step 6). -/
structure AgentPane where
  session : List Char
  window_name : List Char
  pane_id : List Char
  path : List Char
  pane_title : Option (List Char)
  status : Option (List Char)
  status_ts : Option Nat
deriving DecidableEq, Repr

/-- `AgentState::to_agent_pane` as called in `store.rs`
(`state.to_agent_pane(session, window, title)`): persistent fields from the
record, transient `session`/`window_name`/`title` from the live pane. -/
def AgentState.to_agent_pane (s : AgentState) (session window_name : List Char)
    (title : Option (List Char)) : AgentPane :=
  { session := session
    window_name := window_name
    pane_id := s.pane_key.pane_id
    path := s.workdir
    pane_title := title
    status := s.status
    status_ts := s.status_ts }

/-- What one iteration of the `load_reconciled_agents` loop does with one
stored record: skip it (foreign backend/instance), delete its file (pane
gone / pane id recycled / agent exited), or emit a dashboard row. -/
inductive ReconcileAction where
  | skip
  | deleteGone
  | deleteRecycled
  | deleteExited
  | emit (p : AgentPane)
deriving DecidableEq, Repr

/-- The body of the `for state in all_agents` loop of
`StateStore::load_reconciled_agents`, with the live snapshot as a lookup
function `pane_id → Option LivePaneInfo`. -/
def reconcileOne (backend inst : List Char)
    (live : List Char → Option LivePaneInfo) (s : AgentState) : ReconcileAction :=
  if s.pane_key.backend ≠ backend ∨ s.pane_key.inst ≠ inst then
    ReconcileAction.skip
  else
    match live s.pane_key.pane_id with
    | none => ReconcileAction.deleteGone
    | some l =>
      if l.pid ≠ s.pane_pid then ReconcileAction.deleteRecycled
      else if l.current_command ≠ s.command then
        if s.status = none ∨ s.restored = true then
          ReconcileAction.emit
            (s.to_agent_pane (l.session.getD []) (l.window.getD []) l.title)
        else ReconcileAction.deleteExited
      else
        ReconcileAction.emit
          (s.to_agent_pane (l.session.getD []) (l.window.getD []) l.title)

/-- Whether the action deletes the record's state file. -/
def ReconcileAction.deleted : ReconcileAction → Bool
  | .deleteGone => true
  | .deleteRecycled => true
  | .deleteExited => true
  | _ => false

/-- The dashboard row the action emits, if any. -/
def ReconcileAction.emitted : ReconcileAction → Option AgentPane
  | .emit p => some p
  | _ => none

/-- `StateStore::load_reconciled_agents`: the `valid_agents` vector the loop
returns. -/
def load_reconciled_agents (backend inst : List Char)
    (live : List Char → Option LivePaneInfo) (states : List AgentState) :
    List AgentPane :=
  states.filterMap (fun s => (reconcileOne backend inst live s).emitted)

/-- The pane keys whose state files the same pass deletes. -/
def reconciled_deletions (backend inst : List Char)
    (live : List Char → Option LivePaneInfo) (states : List AgentState) :
    List PaneKey :=
  (states.filter (fun s => (reconcileOne backend inst live s).deleted)).map
    AgentState.pane_key

theorem reconcileOne_emit_shape {backend inst : List Char}
    {live : List Char → Option LivePaneInfo} {s : AgentState} {p : AgentPane}
    (h : reconcileOne backend inst live s = ReconcileAction.emit p) :
    s.pane_key.backend = backend ∧ s.pane_key.inst = inst ∧
      p.pane_id = s.pane_key.pane_id := by
  unfold reconcileOne at h
  split at h
  · exact absurd h (by simp)
  · next hmatch =>
    push_neg at hmatch
    refine ⟨hmatch.1, hmatch.2, ?_⟩
    split at h
    · exact absurd h (by simp)
    · split at h
      · exact absurd h (by simp)
      · split at h
        · split at h
          · cases h; rfl
          · exact absurd h (by simp)
        · cases h; rfl

theorem mem_reconciled_deletions {backend inst : List Char}
    {live : List Char → Option LivePaneInfo} {states : List AgentState}
    {k : PaneKey} :
    k ∈ reconciled_deletions backend inst live states ↔
      ∃ s ∈ states,
        (reconcileOne backend inst live s).deleted = true ∧ s.pane_key = k := by
  simp only [reconciled_deletions, List.mem_map, List.mem_filter]
  constructor
  · rintro ⟨s, ⟨hs, hdel⟩, hk⟩
    exact ⟨s, hs, hdel, hk⟩
  · rintro ⟨s, hs, hdel, hk⟩
    exact ⟨s, ⟨hs, hdel⟩, hk⟩

theorem mem_load_reconciled_agents {backend inst : List Char}
    {live : List Char → Option LivePaneInfo} {states : List AgentState}
    {p : AgentPane} :
    p ∈ load_reconciled_agents backend inst live states ↔
      ∃ s ∈ states, reconcileOne backend inst live s = ReconcileAction.emit p := by
  simp only [load_reconciled_agents, List.mem_filterMap]
  constructor
  · rintro ⟨s, hs, hemit⟩
    refine ⟨s, hs, ?_⟩
    cases hact : reconcileOne backend inst live s <;>
      simp [hact, ReconcileAction.emitted] at hemit ⊢
    exact hemit
  · rintro ⟨s, hs, hemit⟩
    exact ⟨s, hs, by simp [hemit, ReconcileAction.emitted]⟩

theorem paneKey_eq_of_fields {k k' : PaneKey} (h1 : k.backend = k'.backend)
    (h2 : k.inst = k'.inst) (h3 : k.pane_id = k'.pane_id) : k = k' := by
  cases k; cases k'; simp_all

/-- **C1** (corrected).  A stored record of the *running backend and
instance* whose pane is live with a matching pid but a changed foreground
command is kept — not deleted — and emitted as an AgentPane whenever its
status is `None` or its `restored` flag is set.  (The claim as frozen omits
the backend/instance condition; a record of a foreign backend is skipped and
emits nothing, see the counterexample.) -/
theorem reconcile_keeps_provisional (backend inst : List Char)
    (live : List Char → Option LivePaneInfo) (states : List AgentState)
    (s : AgentState) (l : LivePaneInfo)
    (hmem : s ∈ states)
    (hnd : (states.map AgentState.pane_key).Nodup)
    (hb : s.pane_key.backend = backend) (hi : s.pane_key.inst = inst)
    (hl : live s.pane_key.pane_id = some l)
    (hpid : l.pid = s.pane_pid)
    (hcmd : l.current_command ≠ s.command)
    (hkeep : s.status = none ∨ s.restored = true) :
    s.pane_key ∉ reconciled_deletions backend inst live states ∧
      s.to_agent_pane (l.session.getD []) (l.window.getD []) l.title ∈
        load_reconciled_agents backend inst live states := by
  have hact : reconcileOne backend inst live s =
      ReconcileAction.emit
        (s.to_agent_pane (l.session.getD []) (l.window.getD []) l.title) := by
    unfold reconcileOne
    rw [if_neg (by simp [hb, hi]), hl]
    simp [hpid, hcmd, hkeep]
  constructor
  · intro hdel
    rcases mem_reconciled_deletions.mp hdel with ⟨s', hs', hdel', hk⟩
    have hss : s' = s := List.inj_on_of_nodup_map hnd hs' hmem hk
    subst hss
    rw [hact] at hdel'
    simp [ReconcileAction.deleted] at hdel'
  · exact mem_load_reconciled_agents.mpr ⟨s, hmem, hact⟩

/-- **C1 witness**: a concrete one-record store whose pane is live with the
stored pid (7), a changed command (`"n"` → `"z"`) and `status = None`: the
record is kept and its pane is emitted. -/
theorem reconcile_keeps_provisional_witness :
    ({ pane_key := ⟨['t'], ['i'], ['p']⟩, workdir := ['w'], status := none,
       status_ts := none, pane_title := none, pane_pid := 7, command := ['n'],
       updated_ts := 0, restored := false } : AgentState).pane_key ∉
        reconciled_deletions ['t'] ['i']
          (fun k =>
            if k = ['p'] then some ⟨7, ['z'], none, none, none⟩ else none)
          [{ pane_key := ⟨['t'], ['i'], ['p']⟩, workdir := ['w'],
             status := none, status_ts := none, pane_title := none,
             pane_pid := 7, command := ['n'], updated_ts := 0,
             restored := false }] ∧
      AgentState.to_agent_pane
          { pane_key := ⟨['t'], ['i'], ['p']⟩, workdir := ['w'],
            status := none, status_ts := none, pane_title := none,
            pane_pid := 7, command := ['n'], updated_ts := 0,
            restored := false }
          ((Option.getD (none : Option (List Char)) []))
          ((Option.getD (none : Option (List Char)) [])) none ∈
        load_reconciled_agents ['t'] ['i']
          (fun k =>
            if k = ['p'] then some ⟨7, ['z'], none, none, none⟩ else none)
          [{ pane_key := ⟨['t'], ['i'], ['p']⟩, workdir := ['w'],
             status := none, status_ts := none, pane_title := none,
             pane_pid := 7, command := ['n'], updated_ts := 0,
             restored := false }] :=
  reconcile_keeps_provisional ['t'] ['i'] _ _ _ ⟨7, ['z'], none, none, none⟩
    (by decide) (by decide) (by decide) (by decide) (by decide) (by decide)
    (by decide) (by decide)

/-- **C1 counterexample**: the claim as frozen fails without the
backend/instance condition.  A record of backend `"w"` while the running
multiplexer is `"t"`: its pane is present in the snapshot with matching pid
and a different command and its status is `None`, yet the pass emits *no*
AgentPane for it (the record is skipped as foreign). -/
theorem reconcile_keeps_provisional_cex :
    (fun k =>
        if k = ['p'] then
          some (⟨7, ['z'], none, none, none⟩ : LivePaneInfo)
        else none)
        ({ pane_key := ⟨['w'], ['i'], ['p']⟩, workdir := ['w'], status := none,
           status_ts := none, pane_title := none, pane_pid := 7,
           command := ['n'], updated_ts := 0,
           restored := false } : AgentState).pane_key.pane_id =
        some ⟨7, ['z'], none, none, none⟩ ∧
      (7 : Nat) =
        ({ pane_key := ⟨['w'], ['i'], ['p']⟩, workdir := ['w'], status := none,
           status_ts := none, pane_title := none, pane_pid := 7,
           command := ['n'], updated_ts := 0,
           restored := false } : AgentState).pane_pid ∧
      (['z'] : List Char) ≠
        ({ pane_key := ⟨['w'], ['i'], ['p']⟩, workdir := ['w'], status := none,
           status_ts := none, pane_title := none, pane_pid := 7,
           command := ['n'], updated_ts := 0,
           restored := false } : AgentState).command ∧
      load_reconciled_agents ['t'] ['i']
          (fun k =>
            if k = ['p'] then
              some (⟨7, ['z'], none, none, none⟩ : LivePaneInfo)
            else none)
          [{ pane_key := ⟨['w'], ['i'], ['p']⟩, workdir := ['w'],
             status := none, status_ts := none, pane_title := none,
             pane_pid := 7, command := ['n'], updated_ts := 0,
             restored := false }] = [] := by
  refine ⟨by decide, by decide, by decide, by decide⟩

/-- **C2** (corrected).  A stored record of the *running backend and
instance* whose pane is gone from the snapshot, or present with a different
pid, is deleted by one `load_reconciled_agents` pass and no AgentPane for its
pane id is emitted.  (The claim as frozen omits the backend/instance
condition; a record of a foreign backend is skipped, not deleted, see the
counterexample.) -/
theorem reconcile_removes_dead (backend inst : List Char)
    (live : List Char → Option LivePaneInfo) (states : List AgentState)
    (s : AgentState)
    (hmem : s ∈ states)
    (hnd : (states.map AgentState.pane_key).Nodup)
    (hb : s.pane_key.backend = backend) (hi : s.pane_key.inst = inst)
    (horph : live s.pane_key.pane_id = none ∨
      ∃ l, live s.pane_key.pane_id = some l ∧ l.pid ≠ s.pane_pid) :
    s.pane_key ∈ reconciled_deletions backend inst live states ∧
      ∀ p ∈ load_reconciled_agents backend inst live states,
        p.pane_id ≠ s.pane_key.pane_id := by
  have hact : (reconcileOne backend inst live s).deleted = true := by
    unfold reconcileOne
    rw [if_neg (by simp [hb, hi])]
    rcases horph with hgone | ⟨l, hl, hpid⟩
    · rw [hgone]; rfl
    · rw [hl]; simp [hpid, ReconcileAction.deleted]
  refine ⟨mem_reconciled_deletions.mpr ⟨s, hmem, hact, rfl⟩, ?_⟩
  intro p hp heq
  rcases mem_load_reconciled_agents.mp hp with ⟨s', hs', hemit⟩
  obtain ⟨hb', hi', hp'⟩ := reconcileOne_emit_shape hemit
  have hkeys : s'.pane_key = s.pane_key :=
    paneKey_eq_of_fields (by rw [hb', hb]) (by rw [hi', hi])
      (by rw [← hp', heq])
  have hss : s' = s := List.inj_on_of_nodup_map hnd hs' hmem hkeys
  subst hss
  rw [hemit] at hact
  simp [ReconcileAction.deleted] at hact

/-- **C2 witness**: a one-record store of the running backend whose pane id
is absent from an empty snapshot: the pass deletes the file and emits
nothing for its pane id. -/
theorem reconcile_removes_dead_witness :
    ({ pane_key := ⟨['t'], ['i'], ['p']⟩, workdir := ['w'], status := none,
       status_ts := none, pane_title := none, pane_pid := 7, command := ['n'],
       updated_ts := 0, restored := false } : AgentState).pane_key ∈
        reconciled_deletions ['t'] ['i'] (fun _ => none)
          [{ pane_key := ⟨['t'], ['i'], ['p']⟩, workdir := ['w'],
             status := none, status_ts := none, pane_title := none,
             pane_pid := 7, command := ['n'], updated_ts := 0,
             restored := false }] ∧
      ∀ p ∈ load_reconciled_agents ['t'] ['i'] (fun _ => none)
          [{ pane_key := ⟨['t'], ['i'], ['p']⟩, workdir := ['w'],
             status := none, status_ts := none, pane_title := none,
             pane_pid := 7, command := ['n'], updated_ts := 0,
             restored := false }],
        p.pane_id ≠
          ({ pane_key := ⟨['t'], ['i'], ['p']⟩, workdir := ['w'],
             status := none, status_ts := none, pane_title := none,
             pane_pid := 7, command := ['n'], updated_ts := 0,
             restored := false } : AgentState).pane_key.pane_id :=
  reconcile_removes_dead ['t'] ['i'] (fun _ => none) _ _
    (by decide) (by decide) (by decide) (by decide) (Or.inl rfl)

/-- **C2 counterexample**: the claim as frozen fails without the
backend/instance condition.  A record of backend `"w"` while the running
multiplexer is `"t"`: its pane id is absent from the (empty) live snapshot,
yet the pass deletes nothing — the record is skipped as foreign, so its
state file survives. -/
theorem reconcile_removes_dead_cex :
    (fun _ => (none : Option LivePaneInfo))
        ({ pane_key := ⟨['w'], ['i'], ['p']⟩, workdir := ['w'], status := none,
           status_ts := none, pane_title := none, pane_pid := 7,
           command := ['n'], updated_ts := 0,
           restored := false } : AgentState).pane_key.pane_id = none ∧
      reconciled_deletions ['t'] ['i'] (fun _ => none)
          [{ pane_key := ⟨['w'], ['i'], ['p']⟩, workdir := ['w'],
             status := none, status_ts := none, pane_title := none,
             pane_pid := 7, command := ['n'], updated_ts := 0,
             restored := false }] = [] := by
  exact ⟨rfl, by decide⟩

/-! ## Orphan drain (StateStore::drain_orphans) -/

/-- The orphan test of `drain_orphans`: pane gone from the snapshot, or
present with a different pid. -/
def isOrphanState (live : List Char → Option LivePaneInfo)
    (s : AgentState) : Bool :=
  match live s.pane_key.pane_id with
  | none => true
  | some l => decide (l.pid ≠ s.pane_pid)

/-- `HashMap::insert` on an association list keyed by workdir: replace the
entry for the key when present, append otherwise. -/
def oinsert (m : List (List Char × AgentState)) (k : List Char)
    (v : AgentState) : List (List Char × AgentState) :=
  if m.any (fun p => p.1 == k) then
    m.map (fun p => if p.1 == k then (k, v) else p)
  else m ++ [(k, v)]

/-- `StateStore::drain_orphans`: the orphan map the call returns — each
stored orphan, in iteration order, is inserted keyed by its `workdir` (its
state file is deleted as it is collected, see `storeAfterDrain`). -/
def drain_orphans (store : List AgentState)
    (live : List Char → Option LivePaneInfo) :
    List (List Char × AgentState) :=
  store.foldl
    (fun m s => if isOrphanState live s then oinsert m s.workdir s else m) []

/-- The store contents once `drain_orphans` has run: every orphan's state
file has been deleted, the rest are untouched. -/
def storeAfterDrain (store : List AgentState)
    (live : List Char → Option LivePaneInfo) : List AgentState :=
  store.filter (fun s => !isOrphanState live s)

theorem drain_foldl_no_orphans (live : List Char → Option LivePaneInfo) :
    ∀ (l : List AgentState) (acc : List (List Char × AgentState)),
      (∀ s ∈ l, isOrphanState live s = false) →
      l.foldl
          (fun m s =>
            if isOrphanState live s then oinsert m s.workdir s else m)
          acc = acc
  | [], _, _ => rfl
  | a :: t, acc, h => by
    simp only [List.foldl_cons]
    rw [if_neg (by simp [h a (List.mem_cons_self a t)])]
    exact drain_foldl_no_orphans live t acc
      (fun s hs => h s (List.mem_cons_of_mem a hs))

/-- **C5** (confirmed).  Orphan drain is idempotent: for every store
contents and every live-pane snapshot, once one `drain_orphans` pass has
deleted every orphan's state file, an immediately following `drain_orphans`
with the same snapshot returns an empty map. -/
theorem drain_orphans_idempotent (store : List AgentState)
    (live : List Char → Option LivePaneInfo) :
    drain_orphans (storeAfterDrain store live) live = [] := by
  apply drain_foldl_no_orphans
  intro s hs
  have h := List.mem_filter.mp hs
  simpa using h.2

/-! ## Restore orchestration (src/command/restore.rs)

The restore path is modelled as a trace of the two effects the claim speaks
about: draining the orphan store and opening a new worktree window/pane.
Worktrees carry the two facts the loop consults: whether their window
already exists, and the effective workdir computed from `config_rel_dir`
(restore.rs lines 148-157); git, sessions and dry-run printing are
irrelevant to the trace and omitted. -/

/-- A secondary worktree as seen by the `restore_repo` loop. -/
structure Worktree where
  window_exists : Bool
  eff_workdir : List Char
deriving DecidableEq, Repr

/-- An observable step of a restore run. -/
inductive RestoreEvent where
  | drained
  | opened (workdir : List Char) (prior : Option AgentState)
deriving DecidableEq, Repr

/-- `HashMap::remove(&k)`: the value carried out of the map, if any. -/
def olookup (m : List (List Char × AgentState)) (k : List Char) :
    Option AgentState :=
  (m.find? (fun p => p.1 == k)).map (fun p => p.2)

/-- `HashMap::remove(&k)`: the map with the entry for `k` gone. -/
def oremove (m : List (List Char × AgentState)) (k : List Char) :
    List (List Char × AgentState) :=
  m.filter (fun p => !(p.1 == k))

/-- The worktree loop of `restore_repo`: a worktree whose window already
exists is skipped; otherwise `options.prior_agent_state =
orphan_map.remove(&effective_workdir)` consumes the map entry keyed by the
effective workdir and a new pane is opened.  Returns the events emitted and
the final map. -/
def restoreWorktrees (m : List (List Char × AgentState)) :
    List Worktree → List RestoreEvent × List (List Char × AgentState)
  | [] => ([], m)
  | wt :: rest =>
    if wt.window_exists then restoreWorktrees m rest
    else
      let r := restoreWorktrees (oremove m wt.eff_workdir) rest
      (RestoreEvent.opened wt.eff_workdir (olookup m wt.eff_workdir) :: r.1,
        r.2)

/-- `restore_repo`: early return when there is no secondary worktree;
otherwise use the externally injected orphan map when given (`run_all`
path), or drain the store locally (single-repo path) and only then walk the
worktrees.  Returns (events, final orphan map, store contents after). -/
def restore_repo (store : List AgentState)
    (live : List Char → Option LivePaneInfo) (wts : List Worktree)
    (external_orphans : Option (List (List Char × AgentState))) :
    List RestoreEvent × List (List Char × AgentState) × List AgentState :=
  if wts.isEmpty then ([], external_orphans.getD [], store)
  else
    match external_orphans with
    | some m =>
      let r := restoreWorktrees m wts
      (r.1, r.2, store)
    | none =>
      let m := drain_orphans store live
      let r := restoreWorktrees m wts
      (RestoreEvent.drained :: r.1, r.2, storeAfterDrain store live)

/-- `run_all`: pre-drain ALL orphans once, then fold `restore_repo` over the
repositories, injecting the one global orphan map into every call.  Returns
the full event trace of the run. -/
def run_all_events (store : List AgentState)
    (live : List Char → Option LivePaneInfo)
    (repos : List (List Worktree)) : List RestoreEvent :=
  RestoreEvent.drained ::
    (repos.foldl
        (fun (acc : List RestoreEvent × List (List Char × AgentState)) wts =>
          let r := restore_repo (storeAfterDrain store live) live wts
            (some acc.2)
          (acc.1 ++ r.1, r.2.1))
        ([], drain_orphans store live)).1

theorem restore_repo_some (store : List AgentState)
    (live : List Char → Option LivePaneInfo) (wts : List Worktree)
    (m : List (List Char × AgentState)) :
    restore_repo store live wts (some m) =
      ((restoreWorktrees m wts).1, (restoreWorktrees m wts).2, store) := by
  cases wts <;> rfl

theorem restoreWorktrees_append :
    ∀ (xs ys : List Worktree) (m : List (List Char × AgentState)),
      restoreWorktrees m (xs ++ ys) =
        ((restoreWorktrees m xs).1 ++
            (restoreWorktrees (restoreWorktrees m xs).2 ys).1,
          (restoreWorktrees (restoreWorktrees m xs).2 ys).2)
  | [], ys, m => rfl
  | wt :: xs, ys, m => by
    by_cases hw : wt.window_exists
    · simpa [restoreWorktrees, hw] using restoreWorktrees_append xs ys m
    · have ih := restoreWorktrees_append xs ys (oremove m wt.eff_workdir)
      simp [restoreWorktrees, hw, ih]

theorem restoreWorktrees_no_drain :
    ∀ (wts : List Worktree) (m : List (List Char × AgentState)),
      RestoreEvent.drained ∉ (restoreWorktrees m wts).1
  | [], _ => by simp [restoreWorktrees]
  | wt :: rest, m => by
    by_cases hw : wt.window_exists
    · simpa [restoreWorktrees, hw] using restoreWorktrees_no_drain rest m
    · simpa [restoreWorktrees, hw] using
        restoreWorktrees_no_drain rest (oremove m wt.eff_workdir)

theorem run_all_foldl (store : List AgentState)
    (live : List Char → Option LivePaneInfo) :
    ∀ (repos : List (List Worktree)) (acc : List RestoreEvent)
      (m : List (List Char × AgentState)),
      repos.foldl
          (fun (acc : List RestoreEvent × List (List Char × AgentState))
              wts =>
            let r := restore_repo (storeAfterDrain store live) live wts
              (some acc.2)
            (acc.1 ++ r.1, r.2.1))
          (acc, m) =
        (acc ++ (restoreWorktrees m repos.flatten).1,
          (restoreWorktrees m repos.flatten).2)
  | [], acc, m => by simp [restoreWorktrees]
  | wts :: rest, acc, m => by
    simp only [List.foldl_cons, List.flatten_cons]
    rw [restore_repo_some]
    rw [run_all_foldl store live rest
      (acc ++ (restoreWorktrees m wts).1) (restoreWorktrees m wts).2]
    rw [restoreWorktrees_append wts rest.flatten m]
    simp [List.append_assoc]

/-- **C3** (confirmed).  During `restore --all`, the orphan store is drained
exactly once, as the head of the trace, before any worktree window/pane is
opened; every per-repo restore consumes carried-over state from that single
pre-drained map (each open removes the entry keyed by its effective workdir,
see `restoreWorktrees`), and a per-repo restore given an external map never
drains on its own. -/
theorem restore_all_drains_once (store : List AgentState)
    (live : List Char → Option LivePaneInfo) (repos : List (List Worktree)) :
    run_all_events store live repos =
        RestoreEvent.drained ::
          (restoreWorktrees (drain_orphans store live) repos.flatten).1 ∧
      (∀ e ∈ (restoreWorktrees (drain_orphans store live) repos.flatten).1,
        e ≠ RestoreEvent.drained) ∧
      (run_all_events store live repos).count RestoreEvent.drained = 1 ∧
      ∀ (st : List AgentState) (wts : List Worktree)
          (m : List (List Char × AgentState)),
        RestoreEvent.drained ∉ (restore_repo st live wts (some m)).1 := by
  have htrace : run_all_events store live repos =
      RestoreEvent.drained ::
        (restoreWorktrees (drain_orphans store live) repos.flatten).1 := by
    unfold run_all_events
    rw [run_all_foldl store live repos [] (drain_orphans store live)]
    simp
  refine ⟨htrace, ?_, ?_, ?_⟩
  · intro e he hd
    exact restoreWorktrees_no_drain repos.flatten (drain_orphans store live)
      (hd ▸ he)
  · rw [htrace]
    rw [List.count_cons_self]
    rw [List.count_eq_zero.mpr
      (restoreWorktrees_no_drain repos.flatten (drain_orphans store live))]
  · intro st wts m
    rw [restore_repo_some]
    exact restoreWorktrees_no_drain wts m

/-! ## State files on disk: corrupted-file policy (store.rs) -/

/-- What reading a present state file can yield: content that parses as
`AgentState` JSON, or content that fails to parse. -/
inductive FileData where
  | valid (s : AgentState)
  | corrupt
deriving DecidableEq, Repr

/-- A directory entry: readable content, or a file whose read itself fails
with an I/O error other than `NotFound`. -/
inductive FsEntry where
  | readable (d : FileData)
  | unreadable
deriving DecidableEq, Repr

/-- Look a filename up in the agents directory. -/
def lookupFile (fs : List (List Char × FsEntry)) (name : List Char) :
    Option FsEntry :=
  (fs.find? (fun p => p.1 == name)).map (fun p => p.2)

/-- `fs::remove_file`: drop the entry for `name`. -/
def removeFile (fs : List (List Char × FsEntry)) (name : List Char) :
    List (List Char × FsEntry) :=
  fs.filter (fun p => !(p.1 == name))

/-- `read_agent_file` (store.rs): missing file → `Ok(None)`; valid JSON →
`Ok(Some)`; corrupted JSON → warn, delete, `Ok(None)`; any other read error
→ `Err`.  The second component records whether the file was deleted. -/
def read_agent_file :
    Option FsEntry → Except Unit (Option AgentState) × Bool
  | none => (Except.ok none, false)
  | some (FsEntry.readable (FileData.valid s)) => (Except.ok (some s), false)
  | some (FsEntry.readable FileData.corrupt) => (Except.ok none, true)
  | some FsEntry.unreadable => (Except.error (), false)

/-- `StateStore::get_agent`: read the file at the key's filename; the
directory after the call reflects the corrupted-file deletion. -/
def get_agent (fs : List (List Char × FsEntry)) (key : PaneKey) :
    Except Unit (Option AgentState) × List (List Char × FsEntry) :=
  let r := read_agent_file (lookupFile fs key.to_filename)
  (r.1, if r.2 then removeFile fs key.to_filename else fs)

/-- Find the leftmost occurrence of the character `c`. -/
def splitOnceChar (c : Char) : List Char → Option (List Char × List Char)
  | [] => none
  | x :: rest =>
    if x = c then some ([], rest)
    else (splitOnceChar c rest).map (fun p => (x :: p.1, p.2))

/-- Rust `Path::extension` on a file name: the portion after the last `'.'`,
or `None` when there is no `'.'` or the name is a lone leading-dot name. -/
def rustExtension (name : List Char) : Option (List Char) :=
  match splitOnceChar '.' name.reverse with
  | none => none
  | some (extRev, restRev) =>
    if restRev.isEmpty then none else some extRev.reverse

/-- The `list_all_agents` name filter: extension is `"json"` and the name
does not end in `".tmp"` (stale atomic-write temp files are ignored). -/
def isStateFileName (name : List Char) : Bool :=
  (rustExtension name == some ['j', 's', 'o', 'n']) &&
    !(chopTail ['.', 't', 'm', 'p'] name).isSome

/-- `StateStore::list_all_agents`: scan the directory; entries passing the
name filter are read via the corrupted-file policy (`read_agent_file`):
valid records are collected, corrupted files are deleted and skipped, and a
genuine read error is propagated with `?`.  Returns the collected records
and the directory contents after the pass. -/
def list_all_agents :
    List (List Char × FsEntry) →
      Except Unit (List AgentState × List (List Char × FsEntry))
  | [] => Except.ok ([], [])
  | (name, e) :: rest =>
    if isStateFileName name then
      match e with
      | FsEntry.readable (FileData.valid s) =>
        match list_all_agents rest with
        | Except.ok r => Except.ok (s :: r.1, (name, e) :: r.2)
        | Except.error u => Except.error u
      | FsEntry.readable FileData.corrupt =>
        list_all_agents rest
      | FsEntry.unreadable => Except.error ()
    else
      match list_all_agents rest with
      | Except.ok r => Except.ok (r.1, (name, e) :: r.2)
      | Except.error u => Except.error u

/-- The records held by well-formed state files of the directory. -/
def validStatesOf (fs : List (List Char × FsEntry)) : List AgentState :=
  fs.filterMap (fun p =>
    if isStateFileName p.1 then
      match p.2 with
      | FsEntry.readable (FileData.valid s) => some s
      | _ => none
    else none)

/-- The directory once every corrupted state file has been deleted. -/
def cleanFs (fs : List (List Char × FsEntry)) :
    List (List Char × FsEntry) :=
  fs.filter (fun p =>
    !(isStateFileName p.1 &&
      p.2 == FsEntry.readable FileData.corrupt))

theorem list_all_agents_readable :
    ∀ fs : List (List Char × FsEntry),
      (∀ p ∈ fs, p.2 ≠ FsEntry.unreadable) →
      list_all_agents fs = Except.ok (validStatesOf fs, cleanFs fs)
  | [], _ => rfl
  | (name, e) :: rest, h => by
    have hrest := list_all_agents_readable rest
      (fun p hp => h p (List.mem_cons_of_mem _ hp))
    have hhead := h (name, e) (List.mem_cons_self _ _)
    by_cases hn : isStateFileName name
    · cases e with
      | readable d =>
        cases d with
        | valid s =>
          simp [list_all_agents, hn, hrest, validStatesOf, cleanFs]
        | corrupt =>
          simp [list_all_agents, hn, hrest, validStatesOf, cleanFs]
      | unreadable => exact absurd rfl hhead
    · simp [list_all_agents, hn, hrest, validStatesOf, cleanFs]

theorem lookupFile_removeFile (fs : List (List Char × FsEntry))
    (name : List Char) : lookupFile (removeFile fs name) name = none := by
  have : (removeFile fs name).find? (fun p => p.1 == name) = none := by
    apply List.find?_eq_none.mpr
    intro p hp
    have := (List.mem_filter.mp hp).2
    simpa using this
  simp [lookupFile, this]

/-- **C6** (confirmed).  A state file that exists but fails to parse is
self-healed: `get_agent` returns `Ok(None)` — never an error — and deletes
the corrupted file, and `list_all_agents` (over a directory with no genuine
read errors) succeeds, returning exactly the well-formed records and
deleting exactly the corrupted state files; a parse error is never surfaced
as a command failure. -/
theorem corrupted_state_self_heals (fs : List (List Char × FsEntry))
    (key : PaneKey)
    (hc : lookupFile fs key.to_filename =
      some (FsEntry.readable FileData.corrupt))
    (hr : ∀ p ∈ fs, p.2 ≠ FsEntry.unreadable) :
    (get_agent fs key).1 = Except.ok none ∧
      lookupFile (get_agent fs key).2 key.to_filename = none ∧
      list_all_agents fs = Except.ok (validStatesOf fs, cleanFs fs) := by
  refine ⟨?_, ?_, list_all_agents_readable fs hr⟩
  · simp [get_agent, hc, read_agent_file]
  · simp only [get_agent, hc, read_agent_file]
    simpa using lookupFile_removeFile fs key.to_filename

/-- **C6 witness**: a directory holding one corrupted state file for the key
`⟨"t", "i", "p"⟩`: `get_agent` yields `Ok(None)` and removes it, and
`list_all_agents` succeeds with no records and an empty directory. -/
theorem corrupted_state_self_heals_witness :
    (get_agent
          [(PaneKey.to_filename ⟨['t'], ['i'], ['p']⟩,
            FsEntry.readable FileData.corrupt)]
          ⟨['t'], ['i'], ['p']⟩).1 = Except.ok none ∧
      lookupFile
          (get_agent
            [(PaneKey.to_filename ⟨['t'], ['i'], ['p']⟩,
              FsEntry.readable FileData.corrupt)]
            ⟨['t'], ['i'], ['p']⟩).2
          (PaneKey.to_filename ⟨['t'], ['i'], ['p']⟩) = none ∧
      list_all_agents
          [(PaneKey.to_filename ⟨['t'], ['i'], ['p']⟩,
            FsEntry.readable FileData.corrupt)] =
        Except.ok
          (validStatesOf
            [(PaneKey.to_filename ⟨['t'], ['i'], ['p']⟩,
              FsEntry.readable FileData.corrupt)],
          cleanFs
            [(PaneKey.to_filename ⟨['t'], ['i'], ['p']⟩,
              FsEntry.readable FileData.corrupt)]) :=
  corrupted_state_self_heals _ ⟨['t'], ['i'], ['p']⟩ (by decide) (by decide)

/-! ## UUID validation (src/claude/session.rs) -/

/-- Rust `str::split('-')`: the list of parts between the hyphens (one more
part than there are hyphens; the empty string yields one empty part). -/
def splitDash : List Char → List (List Char)
  | [] => [[]]
  | c :: rest =>
    if c = '-' then [] :: splitDash rest
    else
      match splitDash rest with
      | [] => [[c]]
      | p :: ps => (c :: p) :: ps

/-- Rust `char::is_ascii_hexdigit`: `0-9`, `A-F`, `a-f`. -/
def isAsciiHexDigit (c : Char) : Bool :=
  (48 ≤ c.toNat && c.toNat ≤ 57) || (65 ≤ c.toNat && c.toNat ≤ 70) ||
    (97 ≤ c.toNat && c.toNat ≤ 102)

/-- `is_valid_uuid`: split on `'-'`, require exactly five parts, and check
each part against the expected lengths `[8, 4, 4, 4, 12]` and hex-ness. -/
def is_valid_uuid (s : List Char) : Bool :=
  match splitDash s with
  | [p1, p2, p3, p4, p5] =>
    (p1.length == 8 && p1.all isAsciiHexDigit) &&
      (p2.length == 4 && p2.all isAsciiHexDigit) &&
      (p3.length == 4 && p3.all isAsciiHexDigit) &&
      (p4.length == 4 && p4.all isAsciiHexDigit) &&
      (p5.length == 12 && p5.all isAsciiHexDigit)
  | _ => false

/-- Rejoin what `splitDash` split (the inverse image under `split('-')`). -/
def joinDash : List (List Char) → List Char
  | [] => []
  | [p] => p
  | p :: q :: ps => p ++ '-' :: joinDash (q :: ps)

theorem splitDash_ne_nil : ∀ s : List Char, splitDash s ≠ []
  | [] => by simp [splitDash]
  | c :: rest => by
    by_cases hc : c = '-'
    · simp [splitDash, hc]
    · rcases hq : splitDash rest with _ | ⟨p, ps⟩
      · exact absurd hq (splitDash_ne_nil rest)
      · simp [splitDash, hc, hq]

theorem joinDash_splitDash : ∀ s : List Char, joinDash (splitDash s) = s
  | [] => rfl
  | c :: rest => by
    have ih := joinDash_splitDash rest
    by_cases hc : c = '-'
    · subst hc
      rcases hq : splitDash rest with _ | ⟨q, ps⟩
      · exact absurd hq (splitDash_ne_nil rest)
      · rw [hq] at ih
        simp [splitDash, hq, joinDash, ih]
    · rcases hq : splitDash rest with _ | ⟨p, ps⟩
      · exact absurd hq (splitDash_ne_nil rest)
      · rw [hq] at ih
        rcases ps with _ | ⟨q, ps'⟩
        · simp only [joinDash] at ih
          simp [splitDash, hc, hq, joinDash, ih]
        · simp only [joinDash] at ih
          simp [splitDash, hc, hq, joinDash, ih]

theorem splitDash_append_of_no_dash :
    ∀ (a rest : List Char), '-' ∉ a →
      splitDash (a ++ '-' :: rest) = a :: splitDash rest
  | [], rest, _ => by simp [splitDash]
  | x :: a', rest, h => by
    have hx : ¬(x = '-') := fun hx => h (hx ▸ List.mem_cons_self x a')
    have ih := splitDash_append_of_no_dash a' rest
      (fun hm => h (List.mem_cons_of_mem x hm))
    simp [splitDash, hx, ih]

theorem splitDash_of_no_dash :
    ∀ a : List Char, '-' ∉ a → splitDash a = [a]
  | [], _ => rfl
  | x :: a', h => by
    have hx : ¬(x = '-') := fun hx => h (hx ▸ List.mem_cons_self x a')
    have ih := splitDash_of_no_dash a' (fun hm => h (List.mem_cons_of_mem x hm))
    simp [splitDash, hx, ih]

theorem no_dash_of_all_hex {l : List Char}
    (h : l.all isAsciiHexDigit = true) : '-' ∉ l := by
  intro hm
  have := List.all_eq_true.mp h _ hm
  exact absurd this (by decide)

/-- **C7** (confirmed).  `is_valid_uuid(s)` returns true iff `s` consists of
exactly five hyphen-separated groups of ASCII hexadecimal digits with
lengths 8, 4, 4, 4 and 12 (the case-insensitivity is the `0-9 A-F a-f`
ranges of `isAsciiHexDigit`). -/
theorem is_valid_uuid_iff (s : List Char) :
    is_valid_uuid s = true ↔
      ∃ a b c d e : List Char,
        s = a ++ '-' :: (b ++ '-' :: (c ++ '-' :: (d ++ '-' :: e))) ∧
          a.length = 8 ∧ b.length = 4 ∧ c.length = 4 ∧ d.length = 4 ∧
          e.length = 12 ∧ a.all isAsciiHexDigit = true ∧
          b.all isAsciiHexDigit = true ∧ c.all isAsciiHexDigit = true ∧
          d.all isAsciiHexDigit = true ∧ e.all isAsciiHexDigit = true := by
  constructor
  · intro h
    unfold is_valid_uuid at h
    rcases hq : splitDash s with
        _ | ⟨p1, _ | ⟨p2, _ | ⟨p3, _ | ⟨p4, _ | ⟨p5, _ | ⟨p6, ps⟩⟩⟩⟩⟩⟩ <;>
      rw [hq] at h <;> simp at h
    have hs := joinDash_splitDash s
    rw [hq] at hs
    simp only [joinDash] at hs
    exact ⟨p1, p2, p3, p4, p5, hs.symm, h.1.1.1.1.1, h.1.1.1.2.1,
      h.1.1.2.1, h.1.2.1, h.2.1, List.all_eq_true.mpr h.1.1.1.1.2,
      List.all_eq_true.mpr h.1.1.1.2.2, List.all_eq_true.mpr h.1.1.2.2,
      List.all_eq_true.mpr h.1.2.2, List.all_eq_true.mpr h.2.2⟩
  · rintro ⟨a, b, c, d, e, rfl, h8, hb4, hc4, hd4, h12, ha, hb, hc, hd, he⟩
    have hsplit :
        splitDash (a ++ '-' :: (b ++ '-' :: (c ++ '-' :: (d ++ '-' :: e)))) =
          [a, b, c, d, e] := by
      rw [splitDash_append_of_no_dash a _ (no_dash_of_all_hex ha),
        splitDash_append_of_no_dash b _ (no_dash_of_all_hex hb),
        splitDash_append_of_no_dash c _ (no_dash_of_all_hex hc),
        splitDash_append_of_no_dash d _ (no_dash_of_all_hex hd),
        splitDash_of_no_dash e (no_dash_of_all_hex he)]
    unfold is_valid_uuid
    rw [hsplit]
    simp [h8, hb4, hc4, hd4, h12, ha, hb, hc, hd, he]

/-! ## Host-exec command-name validation (src/sandbox/shims.rs) -/

/-- The bytes of an ASCII string literal (the source operates on
`cmd.as_bytes()`). -/
def strBytes (s : String) : List Nat := s.toList.map Char.toNat

/-- Rust `u8::is_ascii_alphanumeric`: `0-9`, `A-Z`, `a-z`. -/
def isAlnumByte (b : Nat) : Bool :=
  (48 ≤ b && b ≤ 57) || (65 ≤ b && b ≤ 90) || (97 ≤ b && b ≤ 122)

/-- A byte allowed in a host-exec command name: alphanumeric or one of
`'-'` (45), `'_'` (95), `'.'` (46). -/
def isShimByte (b : Nat) : Bool :=
  isAlnumByte b || b == 45 || b == 95 || b == 46

/-- `validate_command_name` over the command's bytes: rejects the empty
name, names longer than 64 bytes, a first byte that is not ASCII
alphanumeric, any byte outside `[A-Za-z0-9._-]`, and the reserved names
`"."`, `".."` and `"_shim"`; accepts everything else. -/
def validate_command_name (cmd : List Nat) : Bool :=
  if cmd.isEmpty = true ∨ 64 < cmd.length then false
  else if !isAlnumByte (cmd.headD 0) then false
  else if !(cmd.all isShimByte) then false
  else if cmd == strBytes "." || cmd == strBytes ".." ||
      cmd == strBytes "_shim" then false
  else true

/-- **C8** (confirmed).  `validate_command_name` returns false for every
byte string that is empty, longer than 64 bytes, starts with a
non-alphanumeric byte, contains a byte outside `[A-Za-z0-9._-]`, or equals
`"."`, `".."` or `"_shim"`; and it returns true for `"just"`, `"cargo"`,
`"node-v20"` and `"afplay"`. -/
theorem validate_command_name_spec (cmd : List Nat)
    (h : cmd = [] ∨ 64 < cmd.length ∨ isAlnumByte (cmd.headD 0) = false ∨
      (∃ b ∈ cmd, isShimByte b = false) ∨ cmd = strBytes "." ∨
      cmd = strBytes ".." ∨ cmd = strBytes "_shim") :
    validate_command_name cmd = false ∧
      validate_command_name (strBytes "just") = true ∧
      validate_command_name (strBytes "cargo") = true ∧
      validate_command_name (strBytes "node-v20") = true ∧
      validate_command_name (strBytes "afplay") = true := by
  refine ⟨?_, by decide, by decide, by decide, by decide⟩
  unfold validate_command_name
  split_ifs with h1 h2 h3 h4
  · rfl
  · rfl
  · rfl
  · rfl
  · exfalso
    rcases h with h | h | h | ⟨b, hb, hbad⟩ | h | h | h
    · exact h1 (Or.inl (by simp [h]))
    · exact h1 (Or.inr h)
    · exact h2 (by rw [h]; rfl)
    · have hall : cmd.all isShimByte = true := by
        rcases Bool.eq_false_or_eq_true (cmd.all isShimByte) with ht | hf
        · exact ht
        · exact absurd (by rw [hf]; rfl) h3
      exact absurd (List.all_eq_true.mp hall b hb) (by simp [hbad])
    · subst h; exact h4 (by decide)
    · subst h; exact h4 (by decide)
    · subst h; exact h4 (by decide)

/-- **C8 witness**: the empty name is rejected (and the four named commands
accepted) at the concrete input `""`. -/
theorem validate_command_name_spec_witness :
    validate_command_name [] = false :=
  (validate_command_name_spec [] (Or.inl rfl)).1

/-! ## Toolchain wrapper script (src/sandbox/toolchain.rs) -/

/-- Detected toolchain in a project directory (enum `DetectedToolchain`). -/
inductive DetectedToolchain where
  | Devbox
  | Flake
  | None
deriving DecidableEq, Repr

/-- The constant Devbox wrapper template (toolchain.rs lines 53-64; braces
and single quotes are written as `\x7b`, `\x7d`, `\x27` escapes). -/
def devboxWrapperScript : String :=
  "_WM_CWD=\"$PWD\"; _WM_HASH=$(cat devbox.json devbox.lock 2>/dev/null | (md5sum 2>/dev/null || md5 -q) | cut -d\" \" -f1); _WM_CACHE=\"$HOME/.cache/workmux/devbox/$_WM_HASH\"; if [ ! -f \"$_WM_CACHE/devbox.json\" ]; then mkdir -p \"$_WM_CACHE\" && cp devbox.json \"$_WM_CACHE/\" && \x7b [ ! -f devbox.lock ] || cp devbox.lock \"$_WM_CACHE/\"; \x7d; fi; export _WM_CWD; devbox run -c \"$_WM_CACHE\" -- bash -c \x27cd \"$_WM_CWD\" && exec \"$@\"\x27 -- \"$@\""

/-- The constant Nix-flake wrapper template (toolchain.rs line 68). -/
def flakeWrapperScript : String :=
  "nix develop --command bash -c \x27exec \"$@\"\x27 -- \"$@\""

/-- `toolchain_wrapper_script`: `None` for no toolchain, otherwise one of
the two constant templates. -/
def toolchain_wrapper_script : DetectedToolchain → Option String
  | DetectedToolchain.Devbox => some devboxWrapperScript
  | DetectedToolchain.Flake => some flakeWrapperScript
  | DetectedToolchain.None => none

/-- Contiguous substring search. -/
def hasSub (pat l : List Char) : Bool :=
  l.tails.any (fun t => pat.isPrefixOf t)

/-- The argv of the host-exec invocation as documented on
`toolchain_wrapper_script` (toolchain.rs line 49:
`Command::new("bash").args(["-c", &script, "--", command]).args(args)`).
Modelled from the spec: the calling site is not under `src/`; user content
enters only after the `"--"` argument. -/
def host_exec_argv (t : DetectedToolchain) (cmd : String)
    (args : List String) : List String :=
  match toolchain_wrapper_script t with
  | some script => ["-c", script, "--", cmd] ++ args
  | none => cmd :: args

set_option maxRecDepth 16384 in
/-- **C9** (confirmed).  The wrapper script is a fixed template: `None`
yields no script, Devbox and Flake yield the two constant strings; the
script slot of the documented bash invocation is the same for every user
command and argument list (user content reaches the shell only as positional
parameters, after `"--"`), and every produced script forwards them via
`exec "$@"`. -/
theorem toolchain_wrapper_static (t : DetectedToolchain) (s cmd cmd' : String)
    (args args' : List String)
    (h : toolchain_wrapper_script t = some s) :
    (s = devboxWrapperScript ∨ s = flakeWrapperScript) ∧
      toolchain_wrapper_script DetectedToolchain.None = none ∧
      toolchain_wrapper_script DetectedToolchain.Devbox =
        some devboxWrapperScript ∧
      toolchain_wrapper_script DetectedToolchain.Flake =
        some flakeWrapperScript ∧
      (host_exec_argv t cmd args).get? 1 = some s ∧
      (host_exec_argv t cmd args).get? 1 =
        (host_exec_argv t cmd' args').get? 1 ∧
      (host_exec_argv t cmd args).drop 3 = cmd :: args ∧
      hasSub ("exec \"$@\"".toList) s.toList = true := by
  cases t with
  | Devbox =>
    have hs : s = devboxWrapperScript := by
      simp [toolchain_wrapper_script] at h
      exact h.symm
    subst hs
    exact ⟨Or.inl rfl, rfl, rfl, rfl, rfl, rfl, rfl, by decide⟩
  | Flake =>
    have hs : s = flakeWrapperScript := by
      simp [toolchain_wrapper_script] at h
      exact h.symm
    subst hs
    exact ⟨Or.inr rfl, rfl, rfl, rfl, rfl, rfl, rfl, by decide⟩
  | None => simp [toolchain_wrapper_script] at h

/-- **C9 witness**: the theorem applied at the Flake toolchain with concrete
user arguments. -/
theorem toolchain_wrapper_static_witness :
    flakeWrapperScript = devboxWrapperScript ∨
      flakeWrapperScript = flakeWrapperScript :=
  (toolchain_wrapper_static DetectedToolchain.Flake flakeWrapperScript
    "echo" "id" ["hello; rm -rf /"] [] rfl).1

/-! ## Shim directory creation (src/sandbox/shims.rs) -/

/-- The `_shim` dispatcher script written by `create_shim_directory`. -/
def shimDispatcherScript : String :=
  "#!/bin/sh\nexec workmux host-exec \"$(basename \"$0\")\" \"$@\"\n"

/-- The shim directory produced: the dispatcher's content and the command
names symlinked to `_shim`. -/
structure ShimDir where
  dispatcher : String
  links : List (List Nat)
deriving DecidableEq, Repr

/-- One step of the symlink loop: an invalid name is skipped with a warning;
a valid one gets its symlink created (a temp symlink renamed into place,
which replaces an existing link of the same name). -/
def addShimLink (links : List (List Nat)) (cmd : List Nat) :
    List (List Nat) :=
  if validate_command_name cmd then
    if cmd ∈ links then links else links ++ [cmd]
  else links

/-- `create_shim_directory`: always writes the `_shim` dispatcher, then
walks the command list creating symlinks; invalid names are skipped, never
turned into an error (the `Except` mirrors the `Result` return type). -/
def create_shim_directory (commands : List (List Nat)) : Except Unit ShimDir :=
  Except.ok
    { dispatcher := shimDispatcherScript
      links := commands.foldl addShimLink [] }

theorem addShimLink_mem {links : List (List Nat)} {c x : List Nat} :
    x ∈ addShimLink links c ↔
      x ∈ links ∨ (x = c ∧ validate_command_name c = true) := by
  unfold addShimLink
  split_ifs with hv hm
  · constructor
    · exact fun hx => Or.inl hx
    · rintro (hx | ⟨rfl, _⟩)
      · exact hx
      · exact hm
  · simp [hv]
  · simp [hv]

theorem mem_foldl_addShimLink :
    ∀ (cmds : List (List Nat)) (acc : List (List Nat)) (x : List Nat),
      x ∈ cmds.foldl addShimLink acc ↔
        x ∈ acc ∨ (x ∈ cmds ∧ validate_command_name x = true)
  | [], acc, x => by simp
  | c :: cmds, acc, x => by
    simp only [List.foldl_cons, mem_foldl_addShimLink cmds, addShimLink_mem,
      List.mem_cons]
    constructor
    · rintro ((hx | ⟨rfl, hv⟩) | ⟨hx, hv⟩)
      · exact Or.inl hx
      · exact Or.inr ⟨Or.inl rfl, hv⟩
      · exact Or.inr ⟨Or.inr hx, hv⟩
    · rintro (hx | ⟨rfl | hx, hv⟩)
      · exact Or.inl (Or.inl hx)
      · exact Or.inl (Or.inr ⟨rfl, hv⟩)
      · exact Or.inr ⟨hx, hv⟩

/-- **C10** (confirmed).  For every command list, `create_shim_directory`
returns `Ok` — invalid names are skipped, not errors — the `_shim`
dispatcher script is always written, and a symlink exists for exactly the
listed names that pass `validate_command_name`. -/
theorem create_shim_directory_spec (commands : List (List Nat)) :
    ∃ dir : ShimDir,
      create_shim_directory commands = Except.ok dir ∧
        dir.dispatcher = shimDispatcherScript ∧
        ∀ name, name ∈ dir.links ↔
          name ∈ commands ∧ validate_command_name name = true := by
  refine ⟨_, rfl, rfl, ?_⟩
  intro name
  simpa using mem_foldl_addShimLink commands [] name
